import Mathlib

/-!
Verification development for the stock-search query core:
a shallow embedding of the natural-language query parser
(src/query_parser.py) and the search-payload compiler
(src/payload_builder.py), together with theorems checking the
specified behavior against the embedded code.

Conventions of the embedding:
* Python strings are Lean `String`s (lists of characters); the ASCII
  fragment of Python's str.lower / str.split / regex character classes
  is modelled (all alias tables and claim inputs are ASCII).
* Python floats are modelled as rationals; the exact IEEE-754 digit
  rendering of the threshold inside a compiled filter string is
  abstracted by `pyFloatRepr` (no claim depends on the digits).
* Python dicts with per-mode keys are modelled as structures with
  optional fields; a missing-key access raises, which is modelled by
  `Except.error` in the payload builder.
-/

/- ===================== Character-level facts ===================== -/

set_option maxRecDepth 4000

namespace StockSearch

/-- toNat of an ofNat on a valid scalar value. -/
theorem charToNat_ofNat_valid (n : Nat) (h : n < 55296) : (Char.ofNat n).toNat = n := by
  rw [Char.ofNat, dif_pos (Or.inl h)]
  simp [Char.ofNatAux, Char.toNat, UInt32.toNat]

/-- Arithmetic characterization of Char.toLower (ASCII lowering). -/
theorem toNat_toLower (c : Char) :
    (Char.toLower c).toNat = if 65 ≤ c.toNat ∧ c.toNat ≤ 90 then c.toNat + 32 else c.toNat := by
  rw [Char.toLower]
  split
  · exact charToNat_ofNat_valid _ (by omega)
  · rfl

/-- Characters are equal iff their scalar values are. -/
theorem char_eq_iff_toNat {c d : Char} : c = d ↔ c.toNat = d.toNat := by
  constructor
  · intro h; rw [h]
  · intro h; apply Char.ext; apply UInt32.ext; exact h

/-- Arithmetic characterization of Char.isWhitespace. -/
theorem isWhitespace_iff (c : Char) :
    c.isWhitespace = true ↔ (c.toNat = 32 ∨ c.toNat = 9 ∨ c.toNat = 13 ∨ c.toNat = 10) := by
  simp [Char.isWhitespace, char_eq_iff_toNat]
  tauto

/-- Arithmetic characterization of Char.isUpper. -/
theorem isUpper_iff (c : Char) :
    c.isUpper = true ↔ (65 ≤ c.toNat ∧ c.toNat ≤ 90) := by
  simp only [Char.isUpper, Bool.and_eq_true, decide_eq_true_eq]
  rfl

/-- Lowering is idempotent on characters. -/
theorem toLower_toLower (c : Char) : Char.toLower (Char.toLower c) = Char.toLower c := by
  rw [char_eq_iff_toNat, toNat_toLower, toNat_toLower]
  split_ifs <;> omega

/-- A lowered character is never an ASCII capital. -/
theorem isUpper_toLower (c : Char) : (Char.toLower c).isUpper = false := by
  rw [Bool.eq_false_iff]
  intro hu
  rw [isUpper_iff, toNat_toLower] at hu
  by_cases h : 65 ≤ c.toNat ∧ c.toNat ≤ 90
  · rw [if_pos h] at hu; omega
  · rw [if_neg h] at hu; omega

/-- Lowering does not change whether a character is whitespace. -/
theorem isWhitespace_toLower (c : Char) : (Char.toLower c).isWhitespace = c.isWhitespace := by
  by_cases h : 65 ≤ c.toNat ∧ c.toNat ≤ 90
  · have h1 : (Char.toLower c).isWhitespace = false := by
      rw [Bool.eq_false_iff]
      intro hw
      rw [isWhitespace_iff, toNat_toLower, if_pos h] at hw
      omega
    have h2 : c.isWhitespace = false := by
      rw [Bool.eq_false_iff]
      intro hw
      rw [isWhitespace_iff] at hw
      omega
    rw [h1, h2]
  · have heq : Char.toLower c = c := by
      rw [char_eq_iff_toNat, toNat_toLower, if_neg h]
    rw [heq]

/- ===================== List-of-characters utilities ===================== -/

/-- Boolean list-prefix test (models Python startswith used by substring scan). -/
def isPfx : List Char → List Char → Bool
  | [], _ => true
  | _ :: _, [] => false
  | a :: as, b :: bs => a == b && isPfx as bs

/-- Boolean substring test: models the Python `needle in haystack` operator. -/
def isSubL (n : List Char) : List Char → Bool
  | [] => isPfx n []
  | c :: t => isPfx n (c :: t) || isSubL n t

/-- String-level substring containment, as used by every alias-table scan. -/
def substrOf (needle hay : String) : Bool := isSubL needle.data hay.data

/-- Splits a character list into the maximal runs of characters satisfying p
(accumulator holds the current run reversed). Models Python re.findall of a
character class, and str.split() when p is non-whitespace. -/
def splitRunsAux (p : Char → Bool) : List Char → List Char → List (List Char)
  | [], cur => if cur = [] then [] else [cur.reverse]
  | c :: t, cur =>
    if p c then splitRunsAux p t (c :: cur)
    else if cur = [] then splitRunsAux p t []
    else cur.reverse :: splitRunsAux p t []

/-- Maximal runs of characters satisfying p. -/
def splitRuns (p : Char → Bool) (l : List Char) : List (List Char) := splitRunsAux p l []

/-- Joins words with single spaces: models " ".join(words). -/
def joinWords : List (List Char) → List Char
  | [] => []
  | [w] => w
  | w :: ws => w ++ ' ' :: joinWords ws

/-- Python-style whitespace test (ASCII fragment). -/
def isWs (c : Char) : Bool := c.isWhitespace

/-- Non-whitespace predicate used by the word splitter. -/
def pNW (c : Char) : Bool := !(isWs c)

/-- sep.join(parts): Python string join. -/
def joinStrSep (sep : String) : List String → String
  | [] => ""
  | [x] => x
  | x :: xs => x ++ sep ++ joinStrSep sep xs

/-- Model of str.lower on a character list (ASCII lowering). -/
def lowerL (l : List Char) : List Char := l.map Char.toLower

/-- Core of normalize on character lists: lowercase, split on whitespace,
rejoin with single spaces. -/
def normList (l : List Char) : List Char :=
  joinWords (splitRuns pNW (lowerL l))

/-- normalize(text): lowercases and collapses whitespace
(query_parser.normalize). -/
def normalize (s : String) : String := String.mk (normList s.data)

/-- text.split(): the whitespace-separated words of a string. -/
def wordsOf (s : String) : List String :=
  (splitRuns pNW s.data).map String.mk

/-- The token character class of extract_stock_query:
re.findall(r"[a-zA-Z0-9&.\-]+", ...). -/
def isTokChar (c : Char) : Bool :=
  c.isLower || c.isUpper || c.isDigit || c == '&' || c == '.' || c == '-'

/-- The alphanumeric-ish tokens of a string (extract_stock_query tokenizer). -/
def tokensOf (s : String) : List String :=
  (splitRuns isTokChar s.data).map String.mk

/- ===================== Alias tables (verbatim from query_parser.py) ===================== -/

/-- METRIC_ALIASES, in source (insertion) order. -/
def METRIC_ALIASES : List (String × String) :=
  [("pe", "PE"),
   ("p/e", "PE"),
   ("p e", "PE"),
   ("pb", "PB"),
   ("p/b", "PB"),
   ("p b", "PB"),
   ("price to book", "PB"),
   ("price", "PRICE"),
   ("share price", "PRICE"),
   ("market price", "PRICE"),
   ("market cap", "MarketCapCr"),
   ("marketcap", "MarketCapCr"),
   ("market capitalization", "MarketCapCr"),
   ("eps", "EPS"),
   ("earnings per share", "EPS"),
   ("dividend", "DividendYieldPct"),
   ("dividend yield", "DividendYieldPct"),
   ("sector", "Sector")]

/-- SECTOR_ALIASES, in source (insertion) order. -/
def SECTOR_ALIASES : List (String × String) :=
  [("energy", "Energy"),
   ("oil", "Energy"),
   ("gas", "Energy"),
   ("petroleum", "Energy"),
   ("oil and gas", "Energy"),
   ("oil & gas", "Energy"),
   ("information technology", "Information Technology"),
   ("it", "Information Technology"),
   ("tech", "Information Technology"),
   ("technology", "Information Technology"),
   ("software", "Information Technology"),
   ("infotech", "Information Technology"),
   ("financials", "Financials"),
   ("financial", "Financials"),
   ("finance", "Financials"),
   ("banking", "Financials"),
   ("bank", "Financials"),
   ("banks", "Financials"),
   ("nbfc", "Financials"),
   ("insurance", "Financials"),
   ("financial services", "Financials"),
   ("automobile", "Automobile"),
   ("auto", "Automobile"),
   ("automotive", "Automobile"),
   ("cars", "Automobile"),
   ("vehicles", "Automobile"),
   ("automobiles", "Automobile"),
   ("consumer staples", "Consumer Staples"),
   ("fmcg", "Consumer Staples"),
   ("consumer goods", "Consumer Staples"),
   ("staples", "Consumer Staples"),
   ("fast moving consumer goods", "Consumer Staples"),
   ("consumer discretionary", "Consumer Discretionary"),
   ("discretionary", "Consumer Discretionary"),
   ("retail", "Consumer Discretionary"),
   ("consumer durables", "Consumer Discretionary"),
   ("healthcare", "Healthcare"),
   ("health", "Healthcare"),
   ("pharma", "Healthcare"),
   ("pharmaceutical", "Healthcare"),
   ("pharmaceuticals", "Healthcare"),
   ("hospitals", "Healthcare"),
   ("health care", "Healthcare"),
   ("materials", "Materials"),
   ("material", "Materials"),
   ("metals", "Materials"),
   ("metal", "Materials"),
   ("mining", "Materials"),
   ("steel", "Materials"),
   ("cement", "Materials"),
   ("chemicals", "Materials"),
   ("metals and mining", "Materials"),
   ("industrials", "Industrials"),
   ("industrial", "Industrials"),
   ("manufacturing", "Industrials"),
   ("engineering", "Industrials"),
   ("construction", "Industrials"),
   ("infrastructure", "Industrials"),
   ("utilities", "Utilities"),
   ("utility", "Utilities"),
   ("power", "Utilities"),
   ("electricity", "Utilities"),
   ("electric", "Utilities"),
   ("communication services", "Communication Services"),
   ("telecom", "Communication Services"),
   ("communication", "Communication Services"),
   ("telco", "Communication Services"),
   ("telecommunications", "Communication Services"),
   ("conglomerate", "Conglomerate"),
   ("diversified", "Conglomerate"),
   ("conglomerates", "Conglomerate"),
   ("real estate", "Real Estate"),
   ("realty", "Real Estate"),
   ("property", "Real Estate"),
   ("real-estate", "Real Estate")]

/-- INDEX_ALIASES, in source (insertion) order. -/
def INDEX_ALIASES : List (String × String) :=
  [("nifty 50", "NIFTY50"),
   ("nifty50", "NIFTY50"),
   ("nifty fifty", "NIFTY50"),
   ("niftyfifty", "NIFTY50"),
   ("nifty-50", "NIFTY50"),
   ("nifty 100", "NIFTY100"),
   ("nifty100", "NIFTY100"),
   ("nifty hundred", "NIFTY100"),
   ("nifty-100", "NIFTY100"),
   ("nifty it", "NIFTYIT"),
   ("niftyit", "NIFTYIT"),
   ("nifty-it", "NIFTYIT"),
   ("nifty information technology", "NIFTYIT"),
   ("nifty tech", "NIFTYIT"),
   ("nifty bank", "NIFTYBANK"),
   ("niftybank", "NIFTYBANK"),
   ("nifty-bank", "NIFTYBANK"),
   ("nifty banking", "NIFTYBANK"),
   ("nifty fmcg", "NIFTYFMCG"),
   ("niftyfmcg", "NIFTYFMCG"),
   ("nifty-fmcg", "NIFTYFMCG"),
   ("nifty consumer staples", "NIFTYFMCG"),
   ("nifty energy", "NIFTYENERGY"),
   ("niftyenergy", "NIFTYENERGY"),
   ("nifty-energy", "NIFTYENERGY"),
   ("nifty oil gas", "NIFTYENERGY"),
   ("nifty auto", "NIFTYAUTO"),
   ("niftyauto", "NIFTYAUTO"),
   ("nifty-auto", "NIFTYAUTO"),
   ("nifty automobile", "NIFTYAUTO"),
   ("nifty pharma", "NIFTYPHARMA"),
   ("niftypharma", "NIFTYPHARMA"),
   ("nifty-pharma", "NIFTYPHARMA"),
   ("nifty pharmaceutical", "NIFTYPHARMA"),
   ("nifty healthcare", "NIFTYPHARMA"),
   ("nifty metal", "NIFTYMETAL"),
   ("niftymetal", "NIFTYMETAL"),
   ("nifty-metal", "NIFTYMETAL"),
   ("nifty metals", "NIFTYMETAL"),
   ("nifty realty", "NIFTYREALTY"),
   ("niftyrealty", "NIFTYREALTY"),
   ("nifty-realty", "NIFTYREALTY"),
   ("nifty real estate", "NIFTYREALTY")]

/-- COMPARATOR_ALIASES, in source (insertion) order. -/
def COMPARATOR_ALIASES : List (String × String) :=
  [(">", "gt"),
   ("greater than", "gt"),
   ("higher than", "gt"),
   ("more than", "gt"),
   ("above", "gt"),
   ("over", "gt"),
   ("<", "lt"),
   ("less than", "lt"),
   ("lower than", "lt"),
   ("under", "lt"),
   ("below", "lt"),
   (">=", "ge"),
   ("at least", "ge"),
   ("<=", "le"),
   ("at most", "le")]

/-- STOPWORDS_FOR_STOCK (membership-only set; listed in source order). -/
def STOPWORDS_FOR_STOCK : List String :=
  ["what", "is", "the", "of", "for", "give", "me", "show",
   "tell", "stock", "stocks", "share", "shares",
   "price", "pe", "p/e", "eps",
   "dividend", "yield", "market", "cap", "in", "on", "all",
   "sector", "sectors", "industry"]

/-- First-match association-list lookup: models dict.get. -/
def lookupTbl : List (String × String) → String → Option String
  | [], _ => none
  | (p, v) :: rest, k => if p = k then some v else lookupTbl rest k

/- ===================== Longest-match alias scan ===================== -/

/-- The longest-match loop body shared by detect_metric, detect_index_code and
detect_sector: iterate the table in order, keep the first strictly-longest
matching phrase. -/
def bestMatchAux (text : String) : List (String × String) → Option (String × String) → Option (String × String)
  | [], best => best
  | (p, v) :: rest, none =>
    if substrOf p text then bestMatchAux text rest (some (p, v))
    else bestMatchAux text rest none
  | (p, v) :: rest, some b =>
    if substrOf p text then
      (if p.length > b.1.length then bestMatchAux text rest (some (p, v))
       else bestMatchAux text rest (some b))
    else bestMatchAux text rest (some b)

/-- Longest alias-table phrase occurring as a substring of text. -/
def bestMatch (table : List (String × String)) (text : String) : Option (String × String) :=
  bestMatchAux text table none

/-- A metric detection result: the matched phrase and its column. -/
structure MetricInfo where
  phrase : String
  column : String
deriving DecidableEq

/-- detect_metric: longest METRIC_ALIASES phrase occurring in the text. -/
def detect_metric (text_lower : String) : Option MetricInfo :=
  (bestMatch METRIC_ALIASES text_lower).map (fun pv => ⟨pv.1, pv.2⟩)

/-- detect_index_code: longest INDEX_ALIASES phrase occurring in the text,
returning only the canonical code. -/
def detect_index_code (text_lower : String) : Option String :=
  (bestMatch INDEX_ALIASES text_lower).map (fun pv => pv.2)

/-- The sector-modifier word set of detect_sector. -/
def sector_modifiers : List String :=
  ["all", "top", "best", "good", "leading", "major", "large", "small",
   "sector", "stocks", "companies", "list", "show", "get", "find"]

/-- detect_sector: longest SECTOR_ALIASES phrase with the company-name guard
(a two-word query with no sector-modifier word is treated as a company name). -/
def detect_sector (text_lower _original_text : String) : Option String :=
  match bestMatch SECTOR_ALIASES text_lower with
  | none => none
  | some best =>
    let words_in_query := wordsOf text_lower
    if sector_modifiers.any (fun m => words_in_query.contains m) then some best.2
    else if words_in_query.length ≤ 2 then
      if words_in_query.length = 2 then none
      else some best.2
    else some best.2

/- ===================== Range-filter regex model ===================== -/

/-- The metric alternatives of the detect_metric_filter regex, in pattern order. -/
def metricAlts : List String :=
  ["market cap", "marketcap", "pb", "p/b", "pe", "p/e", "eps",
   "dividend yield", "dividend", "price", "share price", "market price"]

/-- The comparator alternatives of the detect_metric_filter regex, in pattern order. -/
def compAlts : List String :=
  [">=", "<=", ">", "<", "greater than", "more than", "above", "over",
   "less than", "under", "below", "at least", "at most"]

/-- After a comparator: greedy whitespace, then a nonempty maximal run of
digits and dots (the pattern suffix). -/
def takeNumAfterWs (l : List Char) : Option String :=
  let l2 := l.dropWhile isWs
  let digits := l2.takeWhile (fun c => c.isDigit || c == '.')
  if digits = [] then none else some (String.mk digits)

/-- Try each comparator alternative (in pattern order) at this position,
with the number continuation; on failure of the continuation the engine
backtracks to the next alternative. -/
def tryComps : List String → List Char → Option (String × String)
  | [], _ => none
  | a :: as, rest =>
    if isPfx a.data rest then
      match takeNumAfterWs (rest.drop a.data.length) with
      | some v => some (a, v)
      | none => tryComps as rest
    else tryComps as rest

/-- The lazy dot-star between metric and comparator: extend one (non-newline)
character at a time until the comparator-and-number suffix matches. -/
def scanComp : List Char → Option (String × String)
  | [] => tryComps compAlts []
  | c :: t =>
    match tryComps compAlts (c :: t) with
    | some r => some r
    | none => if c == '\n' then none else scanComp t

/-- Try each metric alternative (in pattern order) at this position with the
full continuation. -/
def tryMetrics : List String → List Char → Option (String × String × String)
  | [], _ => none
  | a :: as, rest =>
    if isPfx a.data rest then
      match scanComp (rest.drop a.data.length) with
      | some (cp, v) => some (a, cp, v)
      | none => tryMetrics as rest
    else tryMetrics as rest

/-- re.search of the range-filter pattern: leftmost starting position wins. -/
def regexSearch : List Char → Option (String × String × String)
  | [] => tryMetrics metricAlts []
  | c :: t =>
    match tryMetrics metricAlts (c :: t) with
    | some r => some r
    | none => regexSearch t

/-- Value of a digit string (most significant first). -/
def digitsVal (l : List Char) : Nat :=
  l.foldl (fun acc c => 10 * acc + (c.toNat - 48)) 0

/-- Python float() restricted to the digits-and-dots strings produced by the
regex group: at most one dot and at least one digit, value as a rational. -/
def parseFloat (s : String) : Option ℚ :=
  let l := s.data
  if l.count '.' = 0 then
    if l = [] then none else some ((digitsVal l : ℚ))
  else if l.count '.' = 1 then
    let a := l.takeWhile (fun c => c != '.')
    let b := (l.dropWhile (fun c => c != '.')).drop 1
    if a = [] ∧ b = [] then none
    else some ((digitsVal a : ℚ) + (digitsVal b : ℚ) / ((10 : ℚ) ^ b.length))
  else none

/-- A detected range filter (detect_metric_filter result). -/
structure MFInfo where
  metric : String
  op : String
  value : ℚ
  raw_metric_phrase : String
  raw_comp_phrase : String
deriving DecidableEq

/-- detect_metric_filter: regex search, then alias resolution of both phrase
groups, then numeric parse; None when any step fails. -/
def detect_metric_filter (text_lower : String) : Option MFInfo :=
  match regexSearch text_lower.data with
  | none => none
  | some (mp, cp, vs) =>
    match lookupTbl METRIC_ALIASES mp with
    | none => none
    | some col =>
      match lookupTbl COMPARATOR_ALIASES cp with
      | none => none
      | some op =>
        match parseFloat vs with
        | none => none
        | some v => some ⟨col, op, v, mp, cp⟩

/- ===================== Stock-name extraction ===================== -/

/-- extract_stock_query: tokenize, drop stopwords and tokens of the matched
metric phrase, rejoin; None when nothing remains. -/
def extract_stock_query (_original text_lower : String) (metric_info : Option MetricInfo) : Option String :=
  let tokens := tokensOf text_lower
  let metric_tokens := match metric_info with
    | some mi => wordsOf mi.phrase
    | none => []
  let filtered := tokens.filter
    (fun tok => !(STOPWORDS_FOR_STOCK.contains tok) && !(metric_tokens.contains tok))
  if filtered = [] then none else some (joinStrSep " " filtered)

/- ===================== QuerySpec and the intent router ===================== -/

/-- The metric_filter sub-dictionary carried by a QuerySpec
({metric, op, value}); optional fields model possibly-missing keys. -/
structure MFDict where
  metric : Option String := none
  op : Option String := none
  value : Option ℚ := none
deriving DecidableEq

/-- A parsed query specification: the tagged union returned by
parse_user_query, modelled as a record of optional fields plus the mode tag. -/
structure QuerySpec where
  mode : String
  stock_query : Option String := none
  metric : Option String := none
  index_code : Option String := none
  sector : Option String := none
  metric_filter : Option MFDict := none
  raw_input : Option String := none
  raw_metric_phrase : Option String := none
  raw_comp_phrase : Option String := none
  error : Option String := none
deriving DecidableEq

/-- The router fallback (rules 8 and 9 of the source): a single-stock
overview of the residual extraction, or the unknown terminal variant. -/
def fallbackSpec (original text_lower : String) : QuerySpec :=
  match extract_stock_query original text_lower none with
  | some sq =>
    { mode := "single_stock_overview", stock_query := some sq, raw_input := some original }
  | none =>
    { mode := "unknown", raw_input := some original,
      error := some "Could not parse query. Try patterns like \x27nifty 50\x27, \x27pe of reliance\x27, \x27banking stocks\x27." }

/-- The priority-ordered intent router over the four detector outputs. The
rules are laid out bottom-up (rule8 is the fallback) so that each rule falls
through to the next, exactly mirroring the if/elif chain of the source. -/
def route (original text_lower : String) (metric_info : Option MetricInfo)
    (index_code : Option String) (sector : Option String)
    (metric_filter : Option MFInfo) : QuerySpec :=
  let rule8 : QuerySpec := fallbackSpec original text_lower
  let rule7 : QuerySpec :=
    match metric_filter with
    | some mf =>
      { mode := "list_by_metric_filter",
        metric_filter := some { metric := some mf.metric, op := some mf.op, value := some mf.value },
        raw_input := some original,
        raw_metric_phrase := some mf.raw_metric_phrase,
        raw_comp_phrase := some mf.raw_comp_phrase }
    | none => rule8
  let rule6 : QuerySpec :=
    match sector with
    | some s =>
      { mode := "list_by_sector", sector := some s, raw_input := some original }
    | none => rule7
  let rule5 : QuerySpec :=
    match index_code with
    | some ic =>
      { mode := "list_by_index", index_code := some ic, metric_filter := none,
        raw_input := some original }
    | none => rule6
  let rule4 : QuerySpec :=
    match metric_info with
    | some mi =>
      (match extract_stock_query original text_lower (some mi) with
       | some sq =>
         if ["sector", "sectors", "industry"].any (fun w => (wordsOf text_lower).contains w) then
           rule5
         else
           { mode := "single_stock_metric", stock_query := some sq,
             metric := some mi.column, raw_input := some original,
             raw_metric_phrase := some mi.phrase }
       | none => rule5)
    | none => rule5
  let rule3 : QuerySpec :=
    match sector, metric_filter with
    | some s, some mf =>
      { mode := "list_by_sector_and_metric_filter", sector := some s,
        metric_filter := some { metric := some mf.metric, op := some mf.op, value := some mf.value },
        raw_input := some original,
        raw_metric_phrase := some mf.raw_metric_phrase,
        raw_comp_phrase := some mf.raw_comp_phrase }
    | _, _ => rule4
  let rule2 : QuerySpec :=
    match index_code, sector with
    | some ic, some s =>
      { mode := "list_by_index_and_sector", index_code := some ic, sector := some s,
        raw_input := some original }
    | _, _ => rule3
  match index_code, metric_filter with
  | some ic, some mf =>
    { mode := "list_by_metric_filter", index_code := some ic,
      metric_filter := some { metric := some mf.metric, op := some mf.op, value := some mf.value },
      raw_input := some original,
      raw_metric_phrase := some mf.raw_metric_phrase,
      raw_comp_phrase := some mf.raw_comp_phrase }
  | _, _ => rule2

/-- parse_user_query: normalize, run the four detectors, route. -/
def parse_user_query (user_input : String) : QuerySpec :=
  route user_input (normalize user_input)
    (detect_metric (normalize user_input))
    (detect_index_code (normalize user_input))
    (detect_sector (normalize user_input) user_input)
    (detect_metric_filter (normalize user_input))

/- ===================== The payload compiler ===================== -/

/-- A compiled Azure-Search request body (payload_builder output). -/
structure Payload where
  search : String
  searchFields : Option String := none
  top : Nat
  select : String
  count : Bool := false
  filter : Option String := none
deriving DecidableEq

/-- The fixed overview select-field set of the payload builder. -/
def overview_select : String :=
  "Symbol,SymbolRaw,Name,Sector,MarketCapCr,PE,PB,EPS,DividendYieldPct,AllIndices"

/-- The index-membership filter clause for an index code. -/
def mkIndexClause (ic : String) : String :=
  "AllIndices/any(i: i eq \x27" ++ ic ++ "\x27)"

/-- The sector equality filter clause. -/
def mkSectorClause (s : String) : String :=
  "Sector eq \x27" ++ s ++ "\x27"

/-- Python truthiness of an optional string (None and "" are falsy). -/
def truthyS : Option String → Option String
  | some s => if s = "" then none else some s
  | none => none

/-- " and ".join(clauses) if clauses else None. -/
def joinClauses (cs : List String) : Option String :=
  if cs = [] then none else some (joinStrSep " and " cs)

/-- `payload["filter"] = filter_str` happens only when filter_str is truthy. -/
def setFilter : Option String → Option String
  | some s => if s = "" then none else some s
  | none => none

/-- Rendering of the numeric threshold in the compiled filter string. Python
renders the float via the f-string; the exact IEEE-754 shortest-round-trip
digit string is abstracted here (no claim depends on the digits). -/
def pyFloatRepr (q : ℚ) : String :=
  if q.den = 1 then toString q.num ++ ".0"
  else toString q.num ++ "/" ++ toString q.den

/-- build_metric_filter_odata: the metric-comparison clause, or None when the
metric filter is missing a field or carries a non-canonical comparator. -/
def build_metric_filter_odata (mf : Option MFDict) : Option String :=
  match mf with
  | none => none
  | some m =>
    match m.metric, m.op, m.value with
    | some metric, some op, some v =>
      if metric = "" ∨ op = "" then none
      else if op = "lt" ∨ op = "gt" ∨ op = "le" ∨ op = "ge" then
        some (metric ++ " " ++ op ++ " " ++ pyFloatRepr v)
      else none
    | _, _, _ => none

/-- The optional metric-clause list: `if metric_odata: clauses.append(...)`. -/
def metricClausesOf (mf : Option MFDict) : List String :=
  match build_metric_filter_odata mf with
  | some o => if o = "" then [] else [o]
  | none => []

/-- Select-field extension with the filtered metric, as done by the two
metric-filter modes. -/
def addMetricField (base : List String) (mf : Option MFDict) : List String :=
  match mf with
  | some m =>
    (match truthyS m.metric with
     | some mn => if base.contains mn then base else base ++ [mn]
     | none => base)
  | none => base

/-- build_search_payload_from_spec: per-mode compilation of a QuerySpec into
a request payload. A Python KeyError (missing required key) is modelled as
Except.error. -/
def build_search_payload_from_spec (spec : QuerySpec) : Except String Payload :=
  if spec.mode = "single_stock_metric" then
    match spec.metric with
    | none => .error "KeyError: metric"
    | some metric =>
      match spec.stock_query with
      | none => .error "KeyError: stock_query"
      | some sq =>
        let essential := ["SymbolRaw", "Name", "Symbol"]
        let fields := if essential.contains metric then essential else essential ++ [metric]
        .ok { search := sq, searchFields := some "SymbolRaw,Name,Symbol", top := 1,
              select := joinStrSep "," fields }
  else if spec.mode = "single_stock_overview" then
    match spec.stock_query with
    | none => .error "KeyError: stock_query"
    | some sq =>
      .ok { search := sq, searchFields := some "SymbolRaw,Name,Symbol", top := 1,
            select := overview_select }
  else if spec.mode = "list_by_index" then
    let clauses := match truthyS spec.index_code with
      | some ic => [mkIndexClause ic]
      | none => []
    .ok { search := "*", top := 50, select := overview_select, count := true,
          filter := setFilter (joinClauses clauses) }
  else if spec.mode = "list_by_sector" then
    let fs := match truthyS spec.sector with
      | some s => some (mkSectorClause s)
      | none => none
    .ok { search := "*", top := 50, select := overview_select, count := true,
          filter := setFilter fs }
  else if spec.mode = "list_by_index_and_sector" then
    let clauses :=
      (match truthyS spec.index_code with
       | some ic => [mkIndexClause ic]
       | none => []) ++
      (match truthyS spec.sector with
       | some s => [mkSectorClause s]
       | none => [])
    .ok { search := "*", top := 50, select := overview_select, count := true,
          filter := setFilter (joinClauses clauses) }
  else if spec.mode = "list_by_sector_and_metric_filter" then
    let clauses :=
      (match truthyS spec.sector with
       | some s => [mkSectorClause s]
       | none => []) ++ metricClausesOf spec.metric_filter
    let fields := addMetricField ["SymbolRaw", "Name", "Symbol", "Sector"] spec.metric_filter
    .ok { search := "*", top := 50, select := joinStrSep "," fields, count := true,
          filter := setFilter (joinClauses clauses) }
  else if spec.mode = "list_by_metric_filter" then
    let clauses :=
      (match truthyS spec.index_code with
       | some ic => [mkIndexClause ic]
       | none => []) ++ metricClausesOf spec.metric_filter
    let fields1 := addMetricField ["SymbolRaw", "Name", "Symbol", "Sector"] spec.metric_filter
    let fields := match truthyS spec.index_code with
      | some _ => fields1 ++ ["AllIndices"]
      | none => fields1
    .ok { search := "*", top := 50, select := joinStrSep "," fields, count := true,
          filter := setFilter (joinClauses clauses) }
  else
    match truthyS spec.stock_query with
    | some sq =>
      .ok { search := sq, searchFields := some "SymbolRaw,Name,Symbol", top := 1,
            select := overview_select }
    | none =>
      match spec.raw_input with
      | none => .error "KeyError: raw"
      | some r =>
        .ok { search := r, searchFields := some "SymbolRaw,Name,Symbol", top := 1,
              select := overview_select }


/- ===================== Claim theorems ===================== -/

/-- C1: for the input "nifty 50 stocks with pe less than 50", parse_user_query
returns mode list_by_metric_filter with index_code "NIFTY50" and metric filter
{metric PE, op lt, value 50} (index-plus-range-filter is the top routing rule). -/
theorem C1_index_plus_range_filter :
    (parse_user_query "nifty 50 stocks with pe less than 50").mode = "list_by_metric_filter" ∧
    (parse_user_query "nifty 50 stocks with pe less than 50").index_code = some "NIFTY50" ∧
    (parse_user_query "nifty 50 stocks with pe less than 50").metric_filter =
      some { metric := some "PE", op := some "lt", value := some (50 : ℚ) } := by
  refine ⟨?_, ?_, ?_⟩ <;> decide

/-- C3: "axis bank" parses to a single_stock_overview whose stock query is
"axis bank", with no sector set (the "bank" alias is not taken as a sector). -/
theorem C3_axis_bank_overview :
    (parse_user_query "axis bank").mode = "single_stock_overview" ∧
    (parse_user_query "axis bank").stock_query = some "axis bank" ∧
    (parse_user_query "axis bank").sector = none := by
  refine ⟨?_, ?_, ?_⟩ <;> decide

/-- C2 counterexample: "reliance industries bank" has three tokens, none of
which is a listing-context keyword or sector-modifier; the token immediately
preceding the matched sector keyword "bank" is "industries" (length 10 > 2 and
not a sector-modifier), so the claimed guard demands None — yet detect_sector
returns the sector Financials: the code only vetoes two-token queries and
never inspects the preceding token. -/
theorem C2_counterexample :
    wordsOf "reliance industries bank" = ["reliance", "industries", "bank"] ∧
    bestMatch SECTOR_ALIASES "reliance industries bank" = some ("bank", "Financials") ∧
    (∀ w ∈ wordsOf "reliance industries bank",
      w ∉ sector_modifiers ∧
      w ∉ (["stocks", "companies", "list", "show", "all", "sector", "in"] : List String)) ∧
    "industries".length > 2 ∧
    detect_sector "reliance industries bank" "reliance industries bank" = some "Financials" := by
  refine ⟨?_, ?_, ?_, ?_, ?_⟩ <;> decide

/-- C2 amended: after a sector alias matches, detect_sector returns the sector
whenever some query token is a recognized sector-modifier; otherwise it
returns None exactly when the query has exactly two tokens. The token
immediately preceding the sector keyword and its length are never inspected,
and queries of three or more tokens without modifiers still yield the sector. -/
theorem C2_sector_guard (text_lower orig p s : String)
    (h : bestMatch SECTOR_ALIASES text_lower = some (p, s)) :
    detect_sector text_lower orig =
      (if sector_modifiers.any (fun m => (wordsOf text_lower).contains m) then some s
       else if (wordsOf text_lower).length = 2 then none
       else some s) := by
  simp only [detect_sector, h]
  split_ifs <;> first | rfl | omega

/-- C2 witness: on "banking stocks" the modifier "stocks" is present, so the
guard lets the sector through. -/
theorem C2_sector_guard_witness :
    detect_sector "banking stocks" "banking stocks" = some "Financials" := by
  rw [C2_sector_guard "banking stocks" "banking stocks" "banking" "Financials" (by decide)]
  decide

/-- C4 counterexample: on the input "pe" a metric is detected, stock-name
extraction leaves no residual tokens, and no other detector fires, yet
parse_user_query returns mode unknown — not the claimed bare-metric
list_by_metric_filter. -/
theorem C4_counterexample :
    detect_metric (normalize "pe") = some ⟨"pe", "PE"⟩ ∧
    extract_stock_query "pe" (normalize "pe") (some ⟨"pe", "PE"⟩) = none ∧
    detect_index_code (normalize "pe") = none ∧
    detect_sector (normalize "pe") "pe" = none ∧
    detect_metric_filter (normalize "pe") = none ∧
    (parse_user_query "pe").mode = "unknown" ∧
    (parse_user_query "pe").mode ≠ "list_by_metric_filter" := by
  refine ⟨?_, ?_, ?_, ?_, ?_, ?_, ?_⟩ <;> decide

/-- C4 amended: when a metric phrase is detected but stock-name extraction
with the metric yields nothing, and no index, sector or range filter is
detected, the router never emits a bare-metric list_by_metric_filter; it
falls through to the fallback, which re-extracts without the metric phrase
and returns single_stock_overview on a nonempty residual, else mode unknown. -/
theorem C4_metric_without_residual (input : String) (mi : MetricInfo)
    (hm : detect_metric (normalize input) = some mi)
    (hx : extract_stock_query input (normalize input) (some mi) = none)
    (hi : detect_index_code (normalize input) = none)
    (hs : detect_sector (normalize input) input = none)
    (hf : detect_metric_filter (normalize input) = none) :
    parse_user_query input = fallbackSpec input (normalize input) ∧
    (parse_user_query input).mode ≠ "list_by_metric_filter" := by
  have hroute : parse_user_query input = fallbackSpec input (normalize input) := by
    unfold parse_user_query
    rw [hm, hi, hs, hf]
    simp only [route, hx]
  refine ⟨hroute, ?_⟩
  rw [hroute]
  unfold fallbackSpec
  cases hx2 : extract_stock_query input (normalize input) none <;> simp

/-- C4 witness: the amended behavior at the concrete input "pe"
(fallback yields mode unknown there). -/
theorem C4_metric_without_residual_witness :
    parse_user_query "pe" = fallbackSpec "pe" (normalize "pe") ∧
    (parse_user_query "pe").mode ≠ "list_by_metric_filter" :=
  C4_metric_without_residual "pe" ⟨"pe", "PE"⟩ (by decide) (by decide) (by decide)
    (by decide) (by decide)

/-- C5 counterexample: "share price market capitalization" contains the
metric-table pair "price" ⊂ "share price" (both canonically PRICE), yet
detect_metric returns MarketCapCr, because a third, longer table phrase
("market capitalization") also occurs and wins the longest-match scan; the
claim as universally stated over all such pairs is therefore false. -/
theorem C5_counterexample :
    ("price", "PRICE") ∈ METRIC_ALIASES ∧
    ("share price", "PRICE") ∈ METRIC_ALIASES ∧
    substrOf "price" "share price" = true ∧
    "price" ≠ "share price" ∧
    substrOf "price" "share price market capitalization" = true ∧
    substrOf "share price" "share price market capitalization" = true ∧
    detect_metric "share price market capitalization" =
      some ⟨"market capitalization", "MarketCapCr"⟩ ∧
    "MarketCapCr" ≠ "PRICE" := by
  refine ⟨?_, ?_, ?_, ?_, ?_, ?_, ?_, ?_⟩ <;> decide

/-- Once the scan state holds a phrase at least as long as every remaining
match, the state survives to the end. -/
theorem bestMatchAux_keep (text p2 v2 : String) :
    ∀ l : List (String × String),
      (∀ qw ∈ l, substrOf qw.1 text = true → qw.1.length ≤ p2.length) →
      bestMatchAux text l (some (p2, v2)) = some (p2, v2) := by
  intro l
  induction l with
  | nil => intro _; rfl
  | cons a rest ih =>
    intro hbd
    rcases a with ⟨q, w⟩
    unfold bestMatchAux
    by_cases hocc : substrOf q text = true
    · rw [if_pos hocc]
      have hle : q.length ≤ p2.length := hbd (q, w) (List.mem_cons_self _ _) hocc
      rw [if_neg (by omega : ¬ q.length > p2.length)]
      exact ih (fun qw hqw h => hbd qw (List.mem_cons_of_mem _ hqw) h)
    · rw [if_neg hocc]
      exact ih (fun qw hqw h => hbd qw (List.mem_cons_of_mem _ hqw) h)

/-- The longest-match scan returns the dominating phrase: if (p2, v2) is in
the table, p2 occurs in the text, every other matching table phrase is
strictly shorter, and every entry keyed p2 carries v2, then the scan yields
(p2, v2) — from any running state that matches and is strictly shorter. -/
theorem bestMatchAux_dominant (text p2 v2 : String) :
    ∀ l : List (String × String), ∀ best : Option (String × String),
      substrOf p2 text = true →
      (∀ qw ∈ l, substrOf qw.1 text = true → qw.1 ≠ p2 → qw.1.length < p2.length) →
      (∀ qw ∈ l, qw.1 = p2 → qw.2 = v2) →
      (p2, v2) ∈ l →
      (best = none ∨ ∃ q w, best = some (q, w) ∧ substrOf q text = true ∧ q.length < p2.length) →
      bestMatchAux text l best = some (p2, v2) := by
  intro l
  induction l with
  | nil => intro best _ _ _ hmem _; cases hmem
  | cons a rest ih =>
    intro best hp2occ hdom hkey hmem hbest
    rcases a with ⟨q, w⟩
    have hdom2 : ∀ qw ∈ rest, substrOf qw.1 text = true → qw.1 ≠ p2 → qw.1.length < p2.length :=
      fun qw hqw => hdom qw (List.mem_cons_of_mem _ hqw)
    have hkey2 : ∀ qw ∈ rest, qw.1 = p2 → qw.2 = v2 :=
      fun qw hqw => hkey qw (List.mem_cons_of_mem _ hqw)
    by_cases hq : q = p2
    · have hw : w = v2 := hkey (q, w) (List.mem_cons_self _ _) hq
      have hqw2 : ((q, w) : String × String) = (p2, v2) := by rw [hq, hw]
      have hkeep : ∀ qw ∈ rest, substrOf qw.1 text = true → qw.1.length ≤ p2.length := by
        intro qw hqw hocc
        by_cases hne : qw.1 = p2
        · rw [hne]
        · exact Nat.le_of_lt (hdom2 qw hqw hocc hne)
      rcases hbest with hb | ⟨b1, b2, hb, hbocc, hblt⟩
      · subst hb
        unfold bestMatchAux
        rw [if_pos (hq ▸ hp2occ), hqw2]
        exact bestMatchAux_keep text p2 v2 rest hkeep
      · subst hb
        unfold bestMatchAux
        rw [if_pos (hq ▸ hp2occ)]
        rw [if_pos (by simpa [hq] using hblt : q.length > b1.length), hqw2]
        exact bestMatchAux_keep text p2 v2 rest hkeep
    · have hmem2 : (p2, v2) ∈ rest := by
        rcases List.mem_cons.mp hmem with h | h
        · exact absurd (congrArg Prod.fst h).symm hq
        · exact h
      by_cases hocc : substrOf q text = true
      · have hqlt : q.length < p2.length := hdom (q, w) (List.mem_cons_self _ _) hocc hq
        rcases hbest with hb | ⟨b1, b2, hb, hbocc, hblt⟩
        · subst hb
          unfold bestMatchAux
          rw [if_pos hocc]
          exact ih (some (q, w)) hp2occ hdom2 hkey2 hmem2 (Or.inr ⟨q, w, rfl, hocc, hqlt⟩)
        · subst hb
          unfold bestMatchAux
          rw [if_pos hocc]
          by_cases hgt : q.length > b1.length
          · rw [if_pos hgt]
            exact ih (some (q, w)) hp2occ hdom2 hkey2 hmem2 (Or.inr ⟨q, w, rfl, hocc, hqlt⟩)
          · rw [if_neg hgt]
            exact ih (some (b1, b2)) hp2occ hdom2 hkey2 hmem2 (Or.inr ⟨b1, b2, rfl, hbocc, hblt⟩)
      · rcases hbest with hb | ⟨b1, b2, hb, hbocc, hblt⟩
        · subst hb
          unfold bestMatchAux
          rw [if_neg hocc]
          exact ih none hp2occ hdom2 hkey2 hmem2 (Or.inl rfl)
        · subst hb
          unfold bestMatchAux
          rw [if_neg hocc]
          exact ih (some (b1, b2)) hp2occ hdom2 hkey2 hmem2 (Or.inr ⟨b1, b2, rfl, hbocc, hblt⟩)

/-- Nodup keys force a unique value per key in an association list. -/
theorem mem_keyUnique {tbl : List (String × String)} (hnd : (tbl.map Prod.fst).Nodup)
    {p v w : String} (h1 : (p, v) ∈ tbl) (h2 : (p, w) ∈ tbl) : v = w := by
  induction tbl with
  | nil => cases h1
  | cons a rest ih =>
    rw [List.map_cons, List.nodup_cons] at hnd
    rcases List.mem_cons.mp h1 with h1a | h1r
    · rcases List.mem_cons.mp h2 with h2a | h2r
      · exact congrArg Prod.snd (h1a.trans h2a.symm)
      · exfalso
        apply hnd.1
        rw [← h1a]
        exact List.mem_map.mpr ⟨(p, w), h2r, rfl⟩
    · rcases List.mem_cons.mp h2 with h2a | h2r
      · exfalso
        apply hnd.1
        rw [← h2a]
        exact List.mem_map.mpr ⟨(p, v), h1r, rfl⟩
      · exact ih hnd.2 h1r h2r

/-- The metric alias table has no duplicate keys. -/
theorem metric_keys_nodup : (METRIC_ALIASES.map Prod.fst).Nodup := by decide

/-- The index alias table has no duplicate keys. -/
theorem index_keys_nodup : (INDEX_ALIASES.map Prod.fst).Nodup := by decide

/-- The sector alias table has no duplicate keys. -/
theorem sector_keys_nodup : (SECTOR_ALIASES.map Prod.fst).Nodup := by decide

/-- Dominant longest match for a whole table with nodup keys. -/
theorem bestMatch_dominant (table : List (String × String)) (text p2 v2 : String)
    (hnd : (table.map Prod.fst).Nodup)
    (hmem : (p2, v2) ∈ table)
    (hocc : substrOf p2 text = true)
    (hdom : ∀ qw ∈ table, substrOf qw.1 text = true → qw.1 ≠ p2 → qw.1.length < p2.length) :
    bestMatch table text = some (p2, v2) := by
  apply bestMatchAux_dominant text p2 v2 table none hocc hdom ?_ hmem (Or.inl rfl)
  intro qw hqw hkey
  rcases qw with ⟨q, w⟩
  dsimp at hkey
  subst hkey
  exact mem_keyUnique hnd hqw hmem

/-- C5 amended: the two-phrase longest-match property holds for the metric
and index detectors and for the sector-table lookup under the extra, forced
condition that the longer phrase of the pair is strictly longer than every
other phrase of the same table occurring in the text (otherwise a third,
longer phrase wins, as the counterexample shows; the sector detector proper
may additionally veto the match through its company-name guard). -/
theorem C5_longest_match (text p1 v1 p2 v2 : String)
    (hsub : substrOf p1 p2 = true) (hne : p1 ≠ p2)
    (hocc1 : substrOf p1 text = true) (hocc2 : substrOf p2 text = true) :
    (((p1, v1) ∈ METRIC_ALIASES) → ((p2, v2) ∈ METRIC_ALIASES) →
      (∀ qw ∈ METRIC_ALIASES, substrOf qw.1 text = true → qw.1 ≠ p2 → qw.1.length < p2.length) →
      detect_metric text = some ⟨p2, v2⟩) ∧
    (((p1, v1) ∈ INDEX_ALIASES) → ((p2, v2) ∈ INDEX_ALIASES) →
      (∀ qw ∈ INDEX_ALIASES, substrOf qw.1 text = true → qw.1 ≠ p2 → qw.1.length < p2.length) →
      detect_index_code text = some v2) ∧
    (((p1, v1) ∈ SECTOR_ALIASES) → ((p2, v2) ∈ SECTOR_ALIASES) →
      (∀ qw ∈ SECTOR_ALIASES, substrOf qw.1 text = true → qw.1 ≠ p2 → qw.1.length < p2.length) →
      bestMatch SECTOR_ALIASES text = some (p2, v2)) := by
  refine ⟨?_, ?_, ?_⟩
  · intro _ hmem hdom
    unfold detect_metric
    rw [bestMatch_dominant METRIC_ALIASES text p2 v2 metric_keys_nodup hmem hocc2 hdom]
    rfl
  · intro _ hmem hdom
    unfold detect_index_code
    rw [bestMatch_dominant INDEX_ALIASES text p2 v2 index_keys_nodup hmem hocc2 hdom]
    rfl
  · intro _ hmem hdom
    exact bestMatch_dominant SECTOR_ALIASES text p2 v2 sector_keys_nodup hmem hocc2 hdom

/-- C5 witness: concrete substring pairs for each of the three tables, with
the dominance hypotheses checked by evaluation. -/
theorem C5_longest_match_witness :
    detect_metric "share price" = some ⟨"share price", "PRICE"⟩ ∧
    detect_index_code "nifty banking" = some "NIFTYBANK" ∧
    bestMatch SECTOR_ALIASES "metals" = some ("metals", "Materials") := by
  refine ⟨?_, ?_, ?_⟩
  · exact (C5_longest_match "share price" "price" "PRICE" "share price" "PRICE"
      (by decide) (by decide) (by decide) (by decide)).1
      (by decide) (by decide) (by decide)
  · exact (C5_longest_match "nifty banking" "nifty bank" "NIFTYBANK" "nifty banking" "NIFTYBANK"
      (by decide) (by decide) (by decide) (by decide)).2.1
      (by decide) (by decide) (by decide)
  · exact (C5_longest_match "metals" "metal" "Materials" "metals" "Materials"
      (by decide) (by decide) (by decide) (by decide)).2.2
      (by decide) (by decide) (by decide)

/-- Append acts componentwise on the underlying character lists. -/
theorem strData_append (a b : String) : (a ++ b).data = a.data ++ b.data := by
  cases a
  cases b
  rfl

/-- The compiled index-membership clause is never the empty string. -/
theorem mkIndexClause_ne_empty (ic : String) : mkIndexClause ic ≠ "" := by
  intro h
  have h2 := congrArg String.data h
  rw [mkIndexClause, strData_append, strData_append] at h2
  rcases List.append_eq_nil.mp (List.append_eq_nil.mp h2).1 with ⟨h3, _⟩
  exact absurd h3 (by decide)

/-- The compiled sector clause is never the empty string. -/
theorem mkSectorClause_ne_empty (s : String) : mkSectorClause s ≠ "" := by
  intro h
  have h2 := congrArg String.data h
  rw [mkSectorClause, strData_append, strData_append] at h2
  rcases List.append_eq_nil.mp (List.append_eq_nil.mp h2).1 with ⟨h3, _⟩
  exact absurd h3 (by decide)

/-- C6: for every list_by_index QuerySpec carrying a (nonempty) index code,
the compiled request has wildcard search text, the collection-membership
filter containing the literal index code, the fixed overview field set,
top 50 and count on. -/
theorem C6_list_by_index_compilation (spec : QuerySpec) (c : String)
    (hmode : spec.mode = "list_by_index")
    (hic : spec.index_code = some c) (hne : c ≠ "") :
    build_search_payload_from_spec spec =
      Except.ok { search := "*", top := 50, select := overview_select, count := true,
                  filter := some (mkIndexClause c) } := by
  unfold build_search_payload_from_spec
  rw [hmode]
  rw [if_neg (by decide), if_neg (by decide), if_pos rfl]
  rw [hic]
  simp only [truthyS, if_neg hne]
  simp only [joinClauses, if_neg (by simp : ¬ ([mkIndexClause c] : List String) = [])]
  simp only [joinStrSep, setFilter, if_neg (mkIndexClause_ne_empty c)]

/-- C6 witness: a concrete list_by_index spec compiles to the expected
payload. -/
theorem C6_list_by_index_compilation_witness :
    build_search_payload_from_spec
      { mode := "list_by_index", index_code := some "NIFTY50", raw_input := some "nifty 50" } =
      Except.ok { search := "*", top := 50, select := overview_select, count := true,
                  filter := some (mkIndexClause "NIFTY50") } :=
  C6_list_by_index_compilation
    { mode := "list_by_index", index_code := some "NIFTY50", raw_input := some "nifty 50" }
    "NIFTY50" rfl rfl (by decide)

/-- A metric filter that the compiler rejects: a comparator outside the four
canonical operators, or a missing metric, operator or value. -/
def badMF (m : MFDict) : Prop :=
  m.op = none ∨ (∃ o, m.op = some o ∧ o ∉ (["lt", "gt", "le", "ge"] : List String)) ∨
  m.metric = none ∨ m.value = none

/-- A bad metric filter produces no OData clause. -/
theorem build_metric_filter_odata_bad (m : MFDict) (hbad : badMF m) :
    build_metric_filter_odata (some m) = none := by
  rcases m with ⟨mm, mo, mv⟩
  rcases mm with _ | metric <;> rcases mo with _ | op <;> rcases mv with _ | v <;>
    simp only [build_metric_filter_odata] <;> try rfl
  rcases hbad with h | ⟨o, ho2, hno⟩ | h | h
  · exact Option.noConfusion h
  · have heq : op = o := Option.some.inj ho2
    subst heq
    by_cases hemp : metric = "" ∨ op = ""
    · rw [if_pos hemp]
    · rw [if_neg hemp]
      rw [if_neg (by simpa using hno)]
  · exact Option.noConfusion h
  · exact Option.noConfusion h

/-- C7: for every QuerySpec whose metric filter carries a non-canonical
comparator (or lacks metric/op/value), compilation raises no error: in both
metric-filter modes the metric-comparison clause is omitted from the filter
and the rest of the request is still produced, and every other mode compiles
exactly as if the metric filter were absent. -/
theorem C7_bad_comparator_dropped (spec : QuerySpec) (m : MFDict)
    (hmf : spec.metric_filter = some m) (hbad : badMF m) :
    build_metric_filter_odata (some m) = none ∧
    (spec.mode ≠ "list_by_metric_filter" → spec.mode ≠ "list_by_sector_and_metric_filter" →
      build_search_payload_from_spec spec =
        build_search_payload_from_spec { spec with metric_filter := none }) ∧
    (spec.mode = "list_by_metric_filter" →
      ∃ p, build_search_payload_from_spec spec = Except.ok p ∧
        p.search = "*" ∧ p.top = 50 ∧ p.count = true ∧
        p.filter = (match truthyS spec.index_code with
                    | some ic => some (mkIndexClause ic)
                    | none => none)) ∧
    (spec.mode = "list_by_sector_and_metric_filter" →
      ∃ p, build_search_payload_from_spec spec = Except.ok p ∧
        p.search = "*" ∧ p.top = 50 ∧ p.count = true ∧
        p.filter = (match truthyS spec.sector with
                    | some sc => some (mkSectorClause sc)
                    | none => none)) := by
  have hnone : build_metric_filter_odata (some m) = none :=
    build_metric_filter_odata_bad m hbad
  have hclauses : metricClausesOf spec.metric_filter = [] := by
    rw [hmf]
    unfold metricClausesOf
    rw [hnone]
  refine ⟨hnone, ?_, ?_, ?_⟩
  · intro hne1 hne2
    unfold build_search_payload_from_spec
    repeat' split
    all_goals try rfl
    all_goals simp_all
  · intro hmode
    unfold build_search_payload_from_spec
    rw [hmode]
    rw [if_neg (by decide), if_neg (by decide), if_neg (by decide), if_neg (by decide),
        if_neg (by decide), if_neg (by decide), if_pos rfl]
    rw [hclauses]
    refine ⟨_, rfl, rfl, rfl, rfl, ?_⟩
    cases htr : truthyS spec.index_code with
    | none => rfl
    | some ic =>
      simp only [htr, List.append_nil]
      simp only [joinClauses, if_neg (by simp : ¬ ([mkIndexClause ic] : List String) = [])]
      simp only [joinStrSep, setFilter, if_neg (mkIndexClause_ne_empty ic)]
  · intro hmode
    unfold build_search_payload_from_spec
    rw [hmode]
    rw [if_neg (by decide), if_neg (by decide), if_neg (by decide), if_neg (by decide),
        if_neg (by decide), if_pos rfl]
    rw [hclauses]
    refine ⟨_, rfl, rfl, rfl, rfl, ?_⟩
    cases htr : truthyS spec.sector with
    | none => rfl
    | some sc =>
      simp only [htr, List.append_nil]
      simp only [joinClauses, if_neg (by simp : ¬ ([mkSectorClause sc] : List String) = [])]
      simp only [joinStrSep, setFilter, if_neg (mkSectorClause_ne_empty sc)]

/-- C7 witness: a list_by_metric_filter spec with comparator "between" still
compiles; the filter carries only the index clause. -/
theorem C7_bad_comparator_dropped_witness :
    build_metric_filter_odata (some { metric := some "PE", op := some "between", value := some (5 : ℚ) }) = none ∧
    (∃ p, build_search_payload_from_spec
        { mode := "list_by_metric_filter", index_code := some "NIFTY50",
          metric_filter := some { metric := some "PE", op := some "between", value := some (5 : ℚ) },
          raw_input := some "q" } = Except.ok p ∧
      p.search = "*" ∧ p.top = 50 ∧ p.count = true ∧
      p.filter = some (mkIndexClause "NIFTY50")) := by
  have h := C7_bad_comparator_dropped
    { mode := "list_by_metric_filter", index_code := some "NIFTY50",
      metric_filter := some { metric := some "PE", op := some "between", value := some (5 : ℚ) },
      raw_input := some "q" }
    { metric := some "PE", op := some "between", value := some (5 : ℚ) }
    rfl (Or.inr (Or.inl ⟨"between", rfl, by decide⟩))
  exact ⟨h.1, h.2.2.1 rfl⟩

/-- C10: all five listing modes compile with uniform paging: wildcard search
text, top 50, and the count flag on. -/
theorem C10_uniform_listing_paging (spec : QuerySpec)
    (h : spec.mode = "list_by_index" ∨ spec.mode = "list_by_sector" ∨
         spec.mode = "list_by_index_and_sector" ∨
         spec.mode = "list_by_sector_and_metric_filter" ∨
         spec.mode = "list_by_metric_filter") :
    ∃ p, build_search_payload_from_spec spec = Except.ok p ∧
      p.search = "*" ∧ p.top = 50 ∧ p.count = true := by
  rcases h with h | h | h | h | h <;>
    (unfold build_search_payload_from_spec; rw [h]) <;>
    exact ⟨_, rfl, rfl, rfl, rfl⟩

/-- C10 witness: a concrete listing spec has wildcard search, top 50,
count on. -/
theorem C10_uniform_listing_paging_witness :
    ∃ p, build_search_payload_from_spec { mode := "list_by_sector", sector := some "Energy" } =
      Except.ok p ∧ p.search = "*" ∧ p.top = 50 ∧ p.count = true :=
  C10_uniform_listing_paging { mode := "list_by_sector", sector := some "Energy" }
    (Or.inr (Or.inl rfl))

/-- Every spec the router can produce compiles without error. -/
theorem route_total (orig tl : String) (mi : Option MetricInfo)
    (ic : Option String) (sec : Option String) (mf : Option MFInfo) :
    ∃ p, build_search_payload_from_spec (route orig tl mi ic sec mf) = Except.ok p := by
  unfold route fallbackSpec
  repeat' split
  all_goals exact ⟨_, rfl⟩

/-- C8: no input string makes the parser or the payload compiler fail:
parse_user_query is total and its result always compiles to a payload,
including the unknown fallback mode. -/
theorem C8_graceful_degradation (s : String) :
    ∃ p, build_search_payload_from_spec (parse_user_query s) = Except.ok p := by
  unfold parse_user_query
  exact route_total s (normalize s) (detect_metric (normalize s))
    (detect_index_code (normalize s)) (detect_sector (normalize s) s)
    (detect_metric_filter (normalize s))

/- ===================== Normalizer properties (C9) ===================== -/

/-- Words produced by the splitter are nonempty and all-satisfying. -/
theorem splitRunsAux_words (p : Char → Bool) :
    ∀ (l cur : List Char), (∀ c ∈ cur, p c = true) →
      ∀ w ∈ splitRunsAux p l cur, w ≠ [] ∧ ∀ c ∈ w, p c = true := by
  intro l
  induction l with
  | nil =>
    intro cur hcur w hw
    unfold splitRunsAux at hw
    by_cases hc : cur = []
    · rw [if_pos hc] at hw
      cases hw
    · rw [if_neg hc] at hw
      rcases List.mem_singleton.mp hw with rfl
      refine ⟨by simpa using hc, ?_⟩
      intro c hcw
      exact hcur c (List.mem_reverse.mp hcw)
  | cons a t ih =>
    intro cur hcur w hw
    unfold splitRunsAux at hw
    by_cases hp : p a = true
    · rw [if_pos hp] at hw
      refine ih (a :: cur) ?_ w hw
      intro c hc
      rcases List.mem_cons.mp hc with rfl | hc
      · exact hp
      · exact hcur c hc
    · rw [if_neg hp] at hw
      by_cases hc : cur = []
      · rw [if_pos hc] at hw
        exact ih [] (by intro c hc2; cases hc2) w hw
      · rw [if_neg hc] at hw
        rcases List.mem_cons.mp hw with rfl | hw2
        · refine ⟨by simpa using hc, ?_⟩
          intro c hcw
          exact hcur c (List.mem_reverse.mp hcw)
        · exact ih [] (by intro c hc2; cases hc2) w hw2

/-- Characters of split words come from the input (or the running run). -/
theorem splitRunsAux_mem (p : Char → Bool) :
    ∀ (l cur : List Char), ∀ w ∈ splitRunsAux p l cur, ∀ c ∈ w, c ∈ l ∨ c ∈ cur := by
  intro l
  induction l with
  | nil =>
    intro cur w hw c hc
    unfold splitRunsAux at hw
    by_cases hcur : cur = []
    · rw [if_pos hcur] at hw
      cases hw
    · rw [if_neg hcur] at hw
      rcases List.mem_singleton.mp hw with rfl
      exact Or.inr (List.mem_reverse.mp hc)
  | cons a t ih =>
    intro cur w hw c hc
    unfold splitRunsAux at hw
    by_cases hp : p a = true
    · rw [if_pos hp] at hw
      rcases ih (a :: cur) w hw c hc with h | h
      · exact Or.inl (List.mem_cons_of_mem _ h)
      · rcases List.mem_cons.mp h with rfl | h2
        · exact Or.inl (List.mem_cons_self _ _)
        · exact Or.inr h2
    · rw [if_neg hp] at hw
      by_cases hcur : cur = []
      · rw [if_pos hcur] at hw
        rcases ih [] w hw c hc with h | h
        · exact Or.inl (List.mem_cons_of_mem _ h)
        · cases h
      · rw [if_neg hcur] at hw
        rcases List.mem_cons.mp hw with rfl | hw2
        · exact Or.inr (List.mem_reverse.mp hc)
        · rcases ih [] w hw2 c hc with h | h
          · exact Or.inl (List.mem_cons_of_mem _ h)
          · cases h

/-- Defining equation of the splitter on a cons cell. -/
theorem splitRunsAux_cons (p : Char → Bool) (a : Char) (t cur : List Char) :
    splitRunsAux p (a :: t) cur =
      if p a = true then splitRunsAux p t (a :: cur)
      else if cur = [] then splitRunsAux p t []
      else cur.reverse :: splitRunsAux p t [] := rfl

/-- Scanning a run of satisfying characters just accumulates it. -/
theorem splitRunsAux_run (p : Char → Bool) :
    ∀ (w l cur : List Char), (∀ c ∈ w, p c = true) →
      splitRunsAux p (w ++ l) cur = splitRunsAux p l (w.reverse ++ cur) := by
  intro w
  induction w with
  | nil => intro l cur _; rfl
  | cons a w' ih =>
    intro l cur hw
    have ha : p a = true := hw a (List.mem_cons_self _ _)
    rw [List.cons_append, splitRunsAux_cons, if_pos ha,
        ih l (a :: cur) (fun c hc => hw c (List.mem_cons_of_mem _ hc)),
        List.reverse_cons, List.append_assoc, List.singleton_append]

/-- Scanning a separator emits the pending run. -/
theorem splitRunsAux_sep (p : Char → Bool) (hsep : p ' ' = false) (l cur : List Char) :
    splitRunsAux p (' ' :: l) cur =
      if cur = [] then splitRunsAux p l [] else cur.reverse :: splitRunsAux p l [] := by
  rw [splitRunsAux_cons, if_neg (by rw [hsep]; exact Bool.false_ne_true)]

/-- Splitting the spaced join of good words recovers exactly those words. -/
theorem splitRuns_joinWords (p : Char → Bool) (hsep : p ' ' = false) :
    ∀ ws : List (List Char),
      (∀ w ∈ ws, w ≠ [] ∧ ∀ c ∈ w, p c = true) →
      splitRuns p (joinWords ws) = ws := by
  intro ws
  induction ws with
  | nil => intro _; rfl
  | cons w tail ih =>
    intro hg
    have hw := hg w (List.mem_cons_self _ _)
    cases tail with
    | nil =>
      show splitRunsAux p (joinWords [w]) [] = [w]
      have : joinWords [w] = w ++ [] := by rw [List.append_nil]; rfl
      rw [this, splitRunsAux_run p w [] [] hw.2]
      unfold splitRunsAux
      rw [if_neg (by simpa using hw.1)]
      rw [List.append_nil, List.reverse_reverse]
    | cons v rest =>
      show splitRunsAux p (w ++ ' ' :: joinWords (v :: rest)) [] = w :: v :: rest
      rw [splitRunsAux_run p w _ [] hw.2]
      rw [splitRunsAux_sep p hsep]
      rw [if_neg (by simpa using hw.1)]
      rw [List.append_nil, List.reverse_reverse]
      have := ih (fun u hu => hg u (List.mem_cons_of_mem _ hu))
      rw [splitRuns] at this
      rw [this]

/-- Every character of a spaced join is a space or a word character. -/
theorem joinWords_chars :
    ∀ (ws : List (List Char)) (c : Char), c ∈ joinWords ws → c = ' ' ∨ ∃ w ∈ ws, c ∈ w := by
  intro ws
  induction ws with
  | nil => intro c hc; cases hc
  | cons w tail ih =>
    intro c hc
    cases tail with
    | nil =>
      exact Or.inr ⟨w, List.mem_cons_self _ _, hc⟩
    | cons v rest =>
      rcases List.mem_append.mp hc with h | h
      · exact Or.inr ⟨w, List.mem_cons_self _ _, h⟩
      · rcases List.mem_cons.mp h with rfl | h2
        · exact Or.inl rfl
        · rcases ih c h2 with h3 | ⟨u, hu, hcu⟩
          · exact Or.inl h3
          · exact Or.inr ⟨u, List.mem_cons_of_mem _ hu, hcu⟩

/-- Mapping a function that fixes every member is the identity. -/
theorem map_id_of_mem {α : Type} (f : α → α) :
    ∀ l : List α, (∀ c ∈ l, f c = c) → l.map f = l := by
  intro l
  induction l with
  | nil => intro _; rfl
  | cons a t ih =>
    intro h
    rw [List.map_cons, h a (List.mem_cons_self _ _), ih (fun c hc => h c (List.mem_cons_of_mem _ hc))]

/-- Checker: no ASCII uppercase character occurs. -/
def noUpperL (l : List Char) : Bool := l.all (fun c => !c.isUpper)

/-- Checker: does the first character exist and is it whitespace. -/
def headIsWsB : List Char → Bool
  | [] => false
  | c :: _ => isWs c

/-- Checker: neither the first nor the last character is whitespace. -/
def noEdgeWs (l : List Char) : Bool := !(headIsWsB l) && !(headIsWsB l.reverse)

/-- Checker: no two consecutive space characters occur. -/
def noDoubleSpace : List Char → Bool
  | [] => true
  | [_] => true
  | a :: b :: t => !(a == ' ' && b == ' ') && noDoubleSpace (b :: t)

/-- The space separator fails the non-whitespace predicate. -/
theorem pNW_space : pNW ' ' = false := rfl

/-- A character satisfying pNW is not the space character. -/
theorem pNW_ne_space {c : Char} (h : pNW c = true) : (c == ' ') = false := by
  by_cases hc : c = ' '
  · subst hc
    cases h
  · exact beq_eq_false_iff_ne.mpr hc

/-- The head of a list of non-whitespace characters is not whitespace. -/
theorem headIsWsB_false_of_all {l : List Char} (h : ∀ c ∈ l, pNW c = true) :
    headIsWsB l = false := by
  cases l with
  | nil => rfl
  | cons c t =>
    have h2 := h c (List.mem_cons_self _ _)
    show isWs c = false
    unfold pNW at h2
    cases hws : isWs c
    · rfl
    · rw [hws] at h2; cases h2

/-- Prepending a nonempty list fixes the head. -/
theorem headIsWsB_append (a b : List Char) (ha : a ≠ []) :
    headIsWsB (a ++ b) = headIsWsB a := by
  cases a with
  | nil => exact absurd rfl ha
  | cons c t => rfl

/-- A spaced join of good words is nonempty when the word list is. -/
theorem joinWords_ne_nil (ws : List (List Char))
    (hne : ws ≠ []) (hg : ∀ w ∈ ws, w ≠ []) : joinWords ws ≠ [] := by
  cases ws with
  | nil => exact absurd rfl hne
  | cons w tail =>
    cases tail with
    | nil => exact hg w (List.mem_cons_self _ _)
    | cons v rest =>
      show w ++ ' ' :: joinWords (v :: rest) ≠ []
      intro h
      rcases List.append_eq_nil.mp h with ⟨-, h2⟩
      cases h2

/-- The join of good words does not start with whitespace. -/
theorem joinWords_head (ws : List (List Char))
    (hg : ∀ w ∈ ws, w ≠ [] ∧ ∀ c ∈ w, pNW c = true) :
    headIsWsB (joinWords ws) = false := by
  cases ws with
  | nil => rfl
  | cons w tail =>
    have hw := hg w (List.mem_cons_self _ _)
    cases tail with
    | nil => exact headIsWsB_false_of_all hw.2
    | cons v rest =>
      show headIsWsB (w ++ ' ' :: joinWords (v :: rest)) = false
      rw [headIsWsB_append w _ hw.1]
      exact headIsWsB_false_of_all hw.2

/-- The join of good words does not end with whitespace. -/
theorem joinWords_last (ws : List (List Char))
    (hg : ∀ w ∈ ws, w ≠ [] ∧ ∀ c ∈ w, pNW c = true) :
    headIsWsB (joinWords ws).reverse = false := by
  induction ws with
  | nil => rfl
  | cons w tail ih =>
    have hw := hg w (List.mem_cons_self _ _)
    cases tail with
    | nil =>
      apply headIsWsB_false_of_all
      intro c hc
      exact hw.2 c (List.mem_reverse.mp hc)
    | cons v rest =>
      have hg2 : ∀ u ∈ v :: rest, u ≠ [] ∧ ∀ c ∈ u, pNW c = true :=
        fun u hu => hg u (List.mem_cons_of_mem _ hu)
      have hjne : joinWords (v :: rest) ≠ [] :=
        joinWords_ne_nil _ (by simp) (fun u hu => (hg2 u hu).1)
      show headIsWsB (w ++ ' ' :: joinWords (v :: rest)).reverse = false
      rw [List.reverse_append, List.reverse_cons]
      rw [headIsWsB_append _ _ (by
        intro h
        rcases List.append_eq_nil.mp h with ⟨h2, -⟩
        exact hjne (by simpa using h2))]
      rw [headIsWsB_append _ _ (by simpa using hjne)]
      exact ih hg2

/-- Prepending a non-space character preserves space-freedom of pairs. -/
theorem noDoubleSpace_cons {a : Char} {t : List Char}
    (ha : (a == ' ') = false) (ht : noDoubleSpace t = true) :
    noDoubleSpace (a :: t) = true := by
  cases t with
  | nil => rfl
  | cons b t2 =>
    show (!(a == ' ' && b == ' ') && noDoubleSpace (b :: t2)) = true
    rw [ha, Bool.false_and, Bool.not_false, Bool.true_and]
    exact ht

/-- Prepending a word of non-whitespace characters preserves it too. -/
theorem noDoubleSpace_append_word :
    ∀ (w l : List Char), (∀ c ∈ w, pNW c = true) → noDoubleSpace l = true →
      noDoubleSpace (w ++ l) = true := by
  intro w
  induction w with
  | nil => intro l _ hl; exact hl
  | cons a w' ih =>
    intro l hw hl
    rw [List.cons_append]
    apply noDoubleSpace_cons (pNW_ne_space (hw a (List.mem_cons_self _ _)))
    exact ih l (fun c hc => hw c (List.mem_cons_of_mem _ hc)) hl

/-- The join of good words never contains two consecutive spaces. -/
theorem joinWords_noDouble (ws : List (List Char))
    (hg : ∀ w ∈ ws, w ≠ [] ∧ ∀ c ∈ w, pNW c = true) :
    noDoubleSpace (joinWords ws) = true := by
  induction ws with
  | nil => rfl
  | cons w tail ih =>
    have hw := hg w (List.mem_cons_self _ _)
    cases tail with
    | nil =>
      have := noDoubleSpace_append_word w [] hw.2 rfl
      rwa [List.append_nil] at this
    | cons v rest =>
      have hg2 : ∀ u ∈ v :: rest, u ≠ [] ∧ ∀ c ∈ u, pNW c = true :=
        fun u hu => hg u (List.mem_cons_of_mem _ hu)
      show noDoubleSpace (w ++ ' ' :: joinWords (v :: rest)) = true
      apply noDoubleSpace_append_word w _ hw.2
      cases hj : joinWords (v :: rest) with
      | nil => rfl
      | cons b t =>
        have hhead : isWs b = false := by
          have := joinWords_head (v :: rest) hg2
          rw [hj] at this
          exact this
        have hb : (b == ' ') = false := by
          by_cases hbs : b = ' '
          · rw [hbs] at hhead; cases hhead
          · exact beq_eq_false_iff_ne.mpr hbs
        show (!(' ' == ' ' && b == ' ') && noDoubleSpace (b :: t)) = true
        rw [hb, Bool.and_false, Bool.not_false, Bool.true_and]
        rw [← hj]
        exact ih hg2

/-- The words the normalizer builds are nonempty and whitespace-free. -/
theorem normList_words_good (l : List Char) :
    ∀ w ∈ splitRuns pNW (lowerL l), w ≠ [] ∧ ∀ c ∈ w, pNW c = true :=
  splitRunsAux_words pNW (lowerL l) [] (by intro c hc; cases hc)

/-- Every character of a normalized list is fixed by lowering. -/
theorem normList_char_lowered (l : List Char) {c : Char} (hc : c ∈ normList l) :
    Char.toLower c = c := by
  rcases joinWords_chars _ c hc with rfl | ⟨w, hw, hcw⟩
  · decide
  · have hmem : c ∈ lowerL l := by
      rcases splitRunsAux_mem pNW (lowerL l) [] w hw c hcw with h | h
      · exact h
      · cases h
    rcases List.mem_map.mp hmem with ⟨x, hx, rfl⟩
    exact toLower_toLower x

/-- The normalizer is idempotent on character lists. -/
theorem normList_idem (l : List Char) : normList (normList l) = normList l := by
  have hlow : lowerL (normList l) = normList l :=
    map_id_of_mem Char.toLower _ (fun c hc => normList_char_lowered l hc)
  show joinWords (splitRuns pNW (lowerL (normList l))) = normList l
  rw [hlow]
  show joinWords (splitRuns pNW (joinWords (splitRuns pNW (lowerL l)))) =
    joinWords (splitRuns pNW (lowerL l))
  rw [splitRuns_joinWords pNW pNW_space _ (normList_words_good l)]

/-- C9: normalize is idempotent, and its output contains no ASCII uppercase
character, no leading or trailing whitespace, and no two consecutive spaces. -/
theorem C9_normalize_idempotent_shape (s : String) :
    normalize (normalize s) = normalize s ∧
    noUpperL (normalize s).data = true ∧
    noEdgeWs (normalize s).data = true ∧
    noDoubleSpace (normalize s).data = true := by
  have hdata : (normalize s).data = normList s.data := rfl
  refine ⟨?_, ?_, ?_, ?_⟩
  · show String.mk (normList (normalize s).data) = normalize s
    rw [hdata, normList_idem]
    rfl
  · rw [hdata]
    apply List.all_eq_true.mpr
    intro c hc
    rcases joinWords_chars _ c hc with rfl | ⟨w, hw, hcw⟩
    · decide
    · have hmem : c ∈ lowerL s.data := by
        rcases splitRunsAux_mem pNW (lowerL s.data) [] w hw c hcw with h | h
        · exact h
        · cases h
      rcases List.mem_map.mp hmem with ⟨x, hx, rfl⟩
      rw [isUpper_toLower]
      rfl
  · rw [hdata]
    show (!(headIsWsB (joinWords (splitRuns pNW (lowerL s.data)))) &&
      !(headIsWsB (joinWords (splitRuns pNW (lowerL s.data))).reverse)) = true
    rw [joinWords_head _ (normList_words_good s.data),
        joinWords_last _ (normList_words_good s.data)]
    rfl
  · rw [hdata]
    exact joinWords_noDouble _ (normList_words_good s.data)

end StockSearch
